import Mathlib

/-!
Verification of `cachedoutput.py`: a notebook preprocessor that caches cell
outputs on the filesystem, keyed by a SHA-1 digest of each cell's effective
source (its own source, optionally prepended with the setup cells' sources).

The Python source is shallowly embedded below: `OutputCache` becomes explicit
state passing over an association-list filesystem, the orchestrator's
per-cell pass becomes a recursive function threading the store, and Python
strings are Lean `String`s (sequences of unicode code points).  `hashlib.sha1`
is embedded as a full executable SHA-1 over the UTF-8 bytes of the input.
-/

namespace CachedOutput

/-! ## SHA-1 over UTF-8 bytes (embedding of `hashlib.sha1(...).hexdigest()`) -/

/-- UTF-8 encoding of a single unicode code point, as a list of byte values. -/
def utf8Char (c : Char) : List Nat :=
  let n := c.toNat
  if n < 0x80 then [n]
  else if n < 0x800 then
    [0xC0 ||| (n >>> 6), 0x80 ||| (n &&& 0x3F)]
  else if n < 0x10000 then
    [0xE0 ||| (n >>> 12), 0x80 ||| ((n >>> 6) &&& 0x3F), 0x80 ||| (n &&& 0x3F)]
  else
    [0xF0 ||| (n >>> 18), 0x80 ||| ((n >>> 12) &&& 0x3F),
     0x80 ||| ((n >>> 6) &&& 0x3F), 0x80 ||| (n &&& 0x3F)]

/-- UTF-8 encoding of a string (Python `source.encode('utf8')`). -/
def utf8Encode (s : String) : List Nat :=
  (s.data.map utf8Char).flatten

/-- 32-bit left rotation on a `Nat` representing a 32-bit word. -/
def rotl32 (k x : Nat) : Nat :=
  (((x <<< k) ||| (x >>> (32 - k)))) % 4294967296

/-- Big-endian 8-byte encoding of a (64-bit) natural number. -/
def lenBytes64 (n : Nat) : List Nat :=
  [(n >>> 56) &&& 0xFF, (n >>> 48) &&& 0xFF, (n >>> 40) &&& 0xFF,
   (n >>> 32) &&& 0xFF, (n >>> 24) &&& 0xFF, (n >>> 16) &&& 0xFF,
   (n >>> 8) &&& 0xFF, n &&& 0xFF]

/-- SHA-1 message padding: append 0x80, zero bytes to 56 mod 64, then the
bit length as 8 big-endian bytes. -/
def sha1Pad (msg : List Nat) : List Nat :=
  let L := msg.length
  let zeros := (120 - (L + 1) % 64) % 64
  msg ++ [0x80] ++ List.replicate zeros 0 ++ lenBytes64 (8 * L)

/-- Split a byte list into 64-byte blocks (structural recursion on a fuel
bound so that the kernel can evaluate it). -/
def toBlocksFuel : Nat → List Nat → List (List Nat)
  | 0, _ => []
  | _, [] => []
  | fuel + 1, x :: xs => (x :: xs).take 64 :: toBlocksFuel fuel ((x :: xs).drop 64)

/-- Split a byte list into 64-byte blocks. -/
def toBlocks (l : List Nat) : List (List Nat) :=
  toBlocksFuel l.length l

/-- The i-th big-endian 32-bit word of a 64-byte block. -/
def blockWord (b : List Nat) (i : Nat) : Nat :=
  (b.getD (4 * i) 0) <<< 24 ||| (b.getD (4 * i + 1) 0) <<< 16 |||
  (b.getD (4 * i + 2) 0) <<< 8 ||| b.getD (4 * i + 3) 0

/-- Extend the 16 message words of a block to 80 round words. -/
def sha1Extend (ws : List Nat) : List Nat :=
  (List.range 64).foldl
    (fun acc _ =>
      let n := acc.length
      acc ++ [rotl32 1 ((acc.getD (n - 3) 0) ^^^ (acc.getD (n - 8) 0) ^^^
                        (acc.getD (n - 14) 0) ^^^ (acc.getD (n - 16) 0))])
    ws

/-- The SHA-1 round function and constant for round `i`. -/
def sha1F (i b c d : Nat) : Nat :=
  if i < 20 then (b &&& c) ||| ((4294967295 ^^^ b) &&& d)
  else if i < 40 then b ^^^ c ^^^ d
  else if i < 60 then (b &&& c) ||| (b &&& d) ||| (c &&& d)
  else b ^^^ c ^^^ d

def sha1K (i : Nat) : Nat :=
  if i < 20 then 0x5A827999
  else if i < 40 then 0x6ED9EBA1
  else if i < 60 then 0x8F1BBCDC
  else 0xCA62C1D6

/-- Process one 64-byte block, updating the five-word state. -/
def sha1Block (st : Nat × Nat × Nat × Nat × Nat) (blk : List Nat) :
    Nat × Nat × Nat × Nat × Nat :=
  let ws := sha1Extend ((List.range 16).map (blockWord blk))
  let (h0, h1, h2, h3, h4) := st
  let (a, b, c, d, e) :=
    (List.range 80).foldl
      (fun (t : Nat × Nat × Nat × Nat × Nat) i =>
        let (a, b, c, d, e) := t
        let tmp := (rotl32 5 a + sha1F i b c d + e + sha1K i + ws.getD i 0) %
          4294967296
        (tmp, a, rotl32 30 b, c, d))
      (h0, h1, h2, h3, h4)
  ((h0 + a) % 4294967296, (h1 + b) % 4294967296, (h2 + c) % 4294967296,
   (h3 + d) % 4294967296, (h4 + e) % 4294967296)

/-- Lowercase hex digit for a value below 16. -/
def hexDigit (n : Nat) : Char :=
  if n < 10 then Char.ofNat (48 + n) else Char.ofNat (87 + n)

/-- 8-digit lowercase hex rendering of a 32-bit word. -/
def hex32 (n : Nat) : String :=
  ⟨[hexDigit ((n >>> 28) &&& 0xF), hexDigit ((n >>> 24) &&& 0xF),
    hexDigit ((n >>> 20) &&& 0xF), hexDigit ((n >>> 16) &&& 0xF),
    hexDigit ((n >>> 12) &&& 0xF), hexDigit ((n >>> 8) &&& 0xF),
    hexDigit ((n >>> 4) &&& 0xF), hexDigit (n &&& 0xF)]⟩

/-- `hashlib.sha1(s.encode('utf8')).hexdigest()`. -/
def sha1Hex (s : String) : String :=
  let blocks := toBlocks (sha1Pad (utf8Encode s))
  let (h0, h1, h2, h3, h4) :=
    blocks.foldl sha1Block (0x67452301, 0xEFCDAB89, 0x98BADCFE, 0x10325476,
      0xC3D2E1F0)
  hex32 h0 ++ hex32 h1 ++ hex32 h2 ++ hex32 h3 ++ hex32 h4

/-! ## Data model

A document is a list of cells.  A cell has a `cell_type` (`code` or other),
a `source` text and mutable `outputs`.  Output records are engine-defined
and treated opaquely, so the embedding is polymorphic in the output type. -/

inductive CellType where
  | code
  | other
deriving DecidableEq

structure Cell (O : Type) where
  cell_type : CellType
  source : String
  outputs : List O
deriving DecidableEq

/-! ## Setup extraction (`CachedOutputPreprocessor.preprocess`, lines 97-104)

The Python loop scans the cells from the front, collecting the source of
code cells into `self.setup` until `setup_cells` many have been found, and
finally stores the last loop index in `self.end_setup_index`.  On an empty
document the loop never runs and `idx` is unbound, so the assignment raises
`NameError`; `extractSetup` returns `none` in that case. -/

def setupScan {O : Type} (setup_cells : Nat) :
    List (Cell O) → Nat → List String → List String × Nat
  | [], idx, setup => (setup, idx - 1)
  | c :: rest, idx, setup =>
    if setup.length ≥ setup_cells then (setup, idx)
    else setupScan setup_cells rest (idx + 1)
      (if c.cell_type = CellType.code then setup ++ [c.source] else setup)

def extractSetup {O : Type} (setup_cells : Nat) (cells : List (Cell O)) :
    Option (List String × Nat) :=
  match cells with
  | [] => none
  | _ :: _ => some (setupScan setup_cells cells 0 [])

/-! ## Cache key (`CachedOutputPreprocessor.cache_key`, lines 83-90) -/

/-- The source text actually hashed by `cache_key`: the setup sources and the
cell's own source joined with a newline when `cell_index > end_setup_index`
and the setup list is non-empty (Python truthiness), the cell's own source
otherwise. -/
def effectiveSource (setup : List String) (end_setup_index : Nat)
    (source : String) (cell_index : Nat) : String :=
  if end_setup_index < cell_index ∧ setup ≠ [] then
    String.intercalate "\n" (setup ++ [source])
  else source

def cache_key (setup : List String) (end_setup_index : Nat)
    (source : String) (cell_index : Nat) : String :=
  sha1Hex (effectiveSource setup end_setup_index source cell_index)

/-! ## Replay decision (`CachedOutputPreprocessor.run_cell`, lines 121-143)

On a cache miss the cell is run in a fresh kernel, preceded by a setup
replay: the whole setup joined when `cell_index >= end_setup_index`, and
otherwise the setup entries strictly before the first entry equal to the
cell's own source (`self.setup.index(cell.source)`, which raises
`ValueError` when no entry matches — modelled by `none`). -/

/-- Python `list.index` restricted to strings: the first position holding the
element, or `none` (a raised `ValueError`) when the element is absent. -/
def pyIndex (x : String) : List String → Option Nat
  | [] => none
  | y :: ys => if y = x then some 0 else (pyIndex x ys).map (· + 1)

def replaySource (setup : List String) (end_setup_index : Nat)
    (source : String) (cell_index : Nat) : Option String :=
  if end_setup_index ≤ cell_index then some (String.intercalate "\n" setup)
  else
    match pyIndex source setup with
    | some j => some (String.intercalate "\n" (setup.take j))
    | none => none

/-- `run_cell`: compute the replay source; run it first when non-empty
(Python truthiness of `setup_cell.source`), then run the cell itself and
capture its outputs.  The external kernel is a parameter `engine`, taking
the replay source actually run (or `none`) and the cell source. -/
def run_cell {O : Type} (engine : Option String → String → List O)
    (setup : List String) (end_setup_index : Nat)
    (source : String) (cell_index : Nat) : Option (List O) :=
  (replaySource setup end_setup_index source cell_index).map fun p =>
    engine (if p = "" then none else some p) source

/-! ## Orchestrator store and per-cell pass

At the orchestrator level the store is the key → outputs mapping realised by
`OutputCache` (one JSON file per key; output records round-trip losslessly
through JSON per the data model), embedded as an association list searched
from the front — a later write shadows an earlier one, like a file
overwrite.  The file layer itself (paths, corrupt files) is modelled
separately below for the store claims. -/

abbrev Store (O : Type) := List (String × List O)

/-- `preprocess_cell` (lines 108-119): non-code cells pass through; for code
cells compute the key, serve a hit from the store, otherwise run the cell
and write its outputs to the store.  The returned `Nat` counts execution
engine invocations (kernel starts) for this cell. -/
def preprocess_cell {O : Type} (engine : Option String → String → List O)
    (setup : List String) (end_setup_index : Nat) (store : Store O)
    (cell : Cell O) (cell_index : Nat) : Option (Cell O × Store O × Nat) :=
  if cell.cell_type ≠ CellType.code then some (cell, store, 0)
  else
    let key := cache_key setup end_setup_index cell.source cell_index
    match List.lookup key store with
    | some outs => some ({ cell with outputs := outs }, store, 0)
    | none =>
      match run_cell engine setup end_setup_index cell.source cell_index with
      | some outs => some ({ cell with outputs := outs }, (key, outs) :: store, 1)
      | none => none

/-- The base preprocessor's loop over all cells (what
`super(ExecutePreprocessor, self).preprocess` runs): `preprocess_cell` on
each cell in order, threading the store and summing engine invocations; a
raised error (`none`) aborts the pass. -/
def processList {O : Type} (engine : Option String → String → List O)
    (setup : List String) (end_setup_index : Nat) :
    List (Cell O) → Store O → Nat → Option (List (Cell O) × Store O × Nat)
  | [], store, _ => some ([], store, 0)
  | c :: rest, store, i =>
    match preprocess_cell engine setup end_setup_index store c i with
    | none => none
    | some (c', store', n) =>
      match processList engine setup end_setup_index rest store' (i + 1) with
      | none => none
      | some (rest', store'', m) => some (c' :: rest', store'', n + m)

/-- `preprocess` (lines 92-106): extract the setup cells, then run the
per-cell pass over the whole document with the given store. -/
def preprocess {O : Type} (engine : Option String → String → List O)
    (setup_cells : Nat) (store : Store O) (cells : List (Cell O)) :
    Option (List (Cell O) × Store O × Nat) :=
  match extractSetup setup_cells cells with
  | none => none
  | some (setup, end_setup_index) =>
    processList engine setup end_setup_index cells store 0

/-! ## Spec-side definitions (for refinement statements) -/

/-- Modelled from the spec: the Setup Set is "an ordered sequence of the
first N code cells' source texts" (N = `setup_cells`). -/
def setupSetSpec {O : Type} (setup_cells : Nat) (cells : List (Cell O)) :
    List String :=
  ((cells.filter fun c => decide (c.cell_type = CellType.code)).map
    fun c => c.source).take setup_cells

/-- The claim's effective source, stated over the spec's Setup Set. -/
def effectiveSourceSpec {O : Type} (setup_cells : Nat) (cells : List (Cell O))
    (boundary : Nat) (source : String) (i : Nat) : String :=
  if boundary < i ∧ setupSetSpec setup_cells cells ≠ [] then
    String.intercalate "\n" (setupSetSpec setup_cells cells ++ [source])
  else source

/-- The effective source hashed for cell `i` of a document, as computed
through `preprocess`'s setup extraction. -/
def docEffectiveSource {O : Type} (setup_cells : Nat) (cells : List (Cell O))
    (i : Nat) : Option String :=
  match extractSetup setup_cells cells with
  | none => none
  | some (setup, end_setup_index) =>
    match cells[i]? with
    | some cell => some (effectiveSource setup end_setup_index cell.source i)
    | none => none

/-- The cache key computed for cell `i` of a document. -/
def docKey {O : Type} (setup_cells : Nat) (cells : List (Cell O)) (i : Nat) :
    Option String :=
  (docEffectiveSource setup_cells cells i).map sha1Hex

/-! ## File-level store (`OutputCache`, lines 25-64)

The filesystem is an association list from paths to file contents.  A file's
content either parses as JSON to a value or makes `json.load` raise
`ValueError`; the external `json` module's outcome on a file is modelled by
the `FileData` sum.  Directories are not modelled (`makedirs` tolerating an
existing directory has no observable effect here). -/

inductive FileData (V : Type) where
  | json (v : V)
  | invalid (raw : String)
deriving DecidableEq

abbrev FS (V : Type) := List (String × FileData V)

inductive PyErr where
  | keyError (key : String)
  | valueError
deriving DecidableEq

/-- `os.path.join` for a non-empty base and a relative component. -/
def osPathJoin (a b : String) : String := a ++ "/" ++ b

namespace OutputCache

/-- `_path` (line 37-38): `os.path.join(root, key[:2], key[2:] + '.json')`.
Python slices take code points, so they are `take`/`drop` on the string's
character data. -/
def _path (root key : String) : String :=
  osPathJoin (osPathJoin root ⟨key.data.take 2⟩) (⟨key.data.drop 2⟩ ++ ".json")

/-- `__contains__` (lines 40-41): `os.path.exists(self._path(key))`. -/
def contains {V : Type} (root : String) (fs : FS V) (key : String) : Bool :=
  (List.lookup (_path root key) fs).isSome

/-- `__getitem__` (lines 43-51): raise `KeyError` when the file is absent;
otherwise `json.load` the file, and on `ValueError` remove the file and
re-raise.  Returns the outcome together with the filesystem after the
call. -/
def getItem {V : Type} (root : String) (fs : FS V) (key : String) :
    Except PyErr V × FS V :=
  if contains root fs key = false then (Except.error (PyErr.keyError key), fs)
  else
    match List.lookup (_path root key) fs with
    | some (FileData.json v) => (Except.ok v, fs)
    | some (FileData.invalid _) =>
      (Except.error PyErr.valueError,
        fs.filter fun e => !(e.1 == _path root key))
    | none => (Except.error (PyErr.keyError key), fs)

/-- `__setitem__` (lines 53-64): create the shard directory if needed (not
observable here) and write the JSON serialization of the value to the
file's path. -/
def setItem {V : Type} (root : String) (fs : FS V) (key : String) (v : V) :
    FS V :=
  (_path root key, FileData.json v) :: fs

end OutputCache

/-! ## Concrete documents used in claim instances -/

def nbTwo : List (Cell Unit) :=
  [⟨CellType.code, "x = 1", []⟩, ⟨CellType.code, "print(x)", []⟩]

def nbTwoChanged : List (Cell Unit) :=
  [⟨CellType.code, "x = 2", []⟩, ⟨CellType.code, "print(x)", []⟩]

def nbWithMarkdown : List (Cell Unit) :=
  [⟨CellType.code, "s", []⟩, ⟨CellType.other, "m", []⟩, ⟨CellType.code, "t", []⟩]

def nbPlain : List (Cell Unit) :=
  [⟨CellType.code, "s", []⟩, ⟨CellType.code, "t", []⟩]

def nbThree : List (Cell Unit) :=
  [⟨CellType.code, "a", []⟩, ⟨CellType.code, "b", []⟩, ⟨CellType.code, "c", []⟩]

def nbAB : List (Cell Unit) :=
  [⟨CellType.code, "a", []⟩, ⟨CellType.code, "b", []⟩]

/-! ## Helper lemmas -/

set_option maxRecDepth 4096 in
example : sha1Hex "abc" = "a9993e364706816aba3e25717850c26c9cd0d89d" := by decide

theorem lookup_cons {O : Type} (k k' : String) (v : List O) (s : Store O) :
    List.lookup k ((k', v) :: s) = if k = k' then some v else List.lookup k s := by
  by_cases h : k = k'
  · simp [List.lookup, h]
  · have hb : (k == k') = false := beq_eq_false_iff_ne.mpr h
    simp [List.lookup, h, hb]

theorem lookup_filter_ne {V : Type} (p : String) (fs : FS V) :
    List.lookup p (fs.filter fun e => !(e.1 == p)) = none := by
  induction fs with
  | nil => rfl
  | cons e rest ih =>
    by_cases h : e.1 = p
    · simp [List.filter_cons, h, ih]
    · simp only [List.filter_cons]
      have hb : (e.1 == p) = false := beq_eq_false_iff_ne.mpr h
      have hb' : (p == e.1) = false := beq_eq_false_iff_ne.mpr (Ne.symm h)
      simp [hb, List.lookup, hb', ih]

theorem pyIndex_isSome (x : String) :
    ∀ l : List String, x ∈ l → (pyIndex x l).isSome := by
  intro l
  induction l with
  | nil => intro h; cases h
  | cons y ys ih =>
    intro h
    by_cases hy : y = x
    · simp [pyIndex, hy]
    · have hx : x ∈ ys := by
        cases h with
        | head => exact absurd rfl hy
        | tail _ h2 => exact h2
      obtain ⟨j, hj⟩ := Option.isSome_iff_exists.mp (ih hx)
      simp [pyIndex, hy, hj]

theorem pyIndex_get (x : String) :
    ∀ (l : List String) (j : Nat), pyIndex x l = some j →
      l[j]? = some x ∧ x ∉ l.take j := by
  intro l
  induction l with
  | nil => intro j h; cases h
  | cons y ys ih =>
    intro j h
    by_cases hy : y = x
    · simp [pyIndex, hy] at h
      subst h
      simp [hy]
    · simp [pyIndex, hy] at h
      obtain ⟨j', hj', rfl⟩ := h
      refine ⟨by simpa using (ih j' hj').1, ?_⟩
      intro hmem
      rw [List.take_succ_cons] at hmem
      cases hmem with
      | head => exact hy rfl
      | tail _ h2 => exact (ih j' hj').2 h2

/-- The setup list produced by the scan is the spec's Setup Set beyond the
accumulator: the first `sc - acc.length` code-cell sources. -/
theorem setupScan_fst {O : Type} (sc : Nat) :
    ∀ (cells : List (Cell O)) (idx : Nat) (acc : List String),
    (setupScan sc cells idx acc).1 =
      acc ++ (((cells.filter fun c => decide (c.cell_type = CellType.code)).map
        fun c => c.source).take (sc - acc.length)) := by
  intro cells
  induction cells with
  | nil => intro idx acc; simp [setupScan]
  | cons c rest ih =>
    intro idx acc
    by_cases h : acc.length ≥ sc
    · have h0 : sc - acc.length = 0 := Nat.sub_eq_zero_of_le h
      simp [setupScan, h, h0]
    · have hlt : acc.length < sc := Nat.not_le.mp h
      by_cases hc : c.cell_type = CellType.code
      · simp only [setupScan, if_neg h, hc, if_pos rfl]
        rw [ih]
        have hsucc : sc - acc.length = (sc - (acc.length + 1)) + 1 := by omega
        simp [hc, List.filter_cons, hsucc, List.take_succ_cons]
      · simp only [setupScan, if_neg h, if_neg hc]
        rw [ih]
        have hb : decide (c.cell_type = CellType.code) = false := by
          simp [hc]
        simp [List.filter_cons, hb]

/-- Every code cell the scan walked past (any index below the boundary it
returns) has its source in the returned setup list. -/
theorem setupScan_sources {O : Type} (sc : Nat) :
    ∀ (cells : List (Cell O)) (idx : Nat) (acc : List String),
      (∀ s, s ∈ acc → s ∈ (setupScan sc cells idx acc).1) ∧
      (∀ k cell, cells[k]? = some cell →
        idx + k < (setupScan sc cells idx acc).2 →
        cell.cell_type = CellType.code →
        cell.source ∈ (setupScan sc cells idx acc).1) := by
  intro cells
  induction cells with
  | nil =>
    intro idx acc
    refine ⟨fun s hs => by simpa [setupScan] using hs, ?_⟩
    intro k cell hk
    simp at hk
  | cons c rest ih =>
    intro idx acc
    by_cases h : acc.length ≥ sc
    · refine ⟨fun s hs => by simpa [setupScan, h] using hs, ?_⟩
      intro k cell _ hlt
      simp only [setupScan, if_pos h] at hlt
      omega
    · have heq : setupScan sc (c :: rest) idx acc =
          setupScan sc rest (idx + 1)
            (if c.cell_type = CellType.code then acc ++ [c.source] else acc) := by
        simp [setupScan, if_neg h]
      constructor
      · intro s hs
        rw [heq]
        refine (ih (idx + 1) _).1 s ?_
        by_cases hc : c.cell_type = CellType.code <;> simp [hc, hs]
      · intro k cell hk hlt hcode
        rw [heq] at hlt ⊢
        match k, hk with
        | 0, hk =>
          have hcell : c = cell := by simpa using hk
          subst hcell
          refine (ih (idx + 1) _).1 c.source ?_
          simp [hcode]
        | k' + 1, hk =>
          have hk' : rest[k']? = some cell := by simpa using hk
          have hlt' : (idx + 1) + k' <
              (setupScan sc rest (idx + 1)
                (if c.cell_type = CellType.code then acc ++ [c.source] else acc)).2 := by
            omega
          exact (ih (idx + 1) _).2 k' cell hk' hlt' hcode

/-- Core of idempotence: a successful pass only adds fresh keys to the store
(existing bindings are preserved), and re-running the same pass from the
resulting store reproduces the same cells and store with zero engine
invocations. -/
theorem processList_second_pass {O : Type}
    (engine : Option String → String → List O)
    (setup : List String) (endIdx : Nat) :
    ∀ (cells : List (Cell O)) (store : Store O) (i : Nat)
      (cells' : List (Cell O)) (store' : Store O) (n : Nat),
      processList engine setup endIdx cells store i = some (cells', store', n) →
      (∀ k v, List.lookup k store = some v → List.lookup k store' = some v) ∧
      processList engine setup endIdx cells store' i = some (cells', store', 0) := by
  intro cells
  induction cells with
  | nil =>
    intro store i cells' store' n h
    simp only [processList, Option.some.injEq, Prod.mk.injEq] at h
    obtain ⟨rfl, rfl, rfl⟩ := h
    exact ⟨fun k v hv => hv, by simp [processList]⟩
  | cons c rest ih =>
    intro store i cells' store' n h
    cases hpc : preprocess_cell engine setup endIdx store c i with
    | none =>
      simp only [processList, hpc] at h
      exact Option.noConfusion h
    | some t =>
      obtain ⟨c1, store1, n1⟩ := t
      simp only [processList, hpc] at h
      cases hrest : processList engine setup endIdx rest store1 (i + 1) with
      | none =>
        simp only [hrest] at h
        exact Option.noConfusion h
      | some t2 =>
        obtain ⟨rest1, store2, m⟩ := t2
        simp only [hrest, Option.some.injEq, Prod.mk.injEq] at h
        obtain ⟨rfl, rfl, rfl⟩ := h
        obtain ⟨pres, hidem⟩ := ih store1 (i + 1) rest1 store2 m hrest
        by_cases hc : c.cell_type = CellType.code
        · cases hk : List.lookup (cache_key setup endIdx c.source i) store with
          | some outs =>
            have hpc0 : preprocess_cell engine setup endIdx store c i =
                some ({ c with outputs := outs }, store, 0) := by
              simp [preprocess_cell, hc, hk]
            rw [hpc0] at hpc
            simp only [Option.some.injEq, Prod.mk.injEq] at hpc
            obtain ⟨rfl, rfl, rfl⟩ := hpc
            have hk2 : List.lookup (cache_key setup endIdx c.source i) store2 =
                some outs := pres _ _ hk
            refine ⟨pres, ?_⟩
            have hpc2 : preprocess_cell engine setup endIdx store2 c i =
                some ({ c with outputs := outs }, store2, 0) := by
              simp [preprocess_cell, hc, hk2]
            simp [processList, hpc2, hidem]
          | none =>
            cases hr : run_cell engine setup endIdx c.source i with
            | none =>
              have hpc0 : preprocess_cell engine setup endIdx store c i = none := by
                simp [preprocess_cell, hc, hk, hr]
              rw [hpc0] at hpc
              cases hpc
            | some outs =>
              have hpc0 : preprocess_cell engine setup endIdx store c i =
                  some ({ c with outputs := outs },
                    (cache_key setup endIdx c.source i, outs) :: store, 1) := by
                simp [preprocess_cell, hc, hk, hr]
              rw [hpc0] at hpc
              simp only [Option.some.injEq, Prod.mk.injEq] at hpc
              obtain ⟨rfl, rfl, rfl⟩ := hpc
              have presAll : ∀ k v, List.lookup k store = some v →
                  List.lookup k store2 = some v := by
                intro k v hv
                refine pres k v ?_
                rw [lookup_cons]
                have hne : k ≠ cache_key setup endIdx c.source i := by
                  intro he
                  rw [he, hk] at hv
                  cases hv
                rw [if_neg hne]
                exact hv
              have hk2 : List.lookup (cache_key setup endIdx c.source i) store2 =
                  some outs := by
                refine pres _ _ ?_
                rw [lookup_cons, if_pos rfl]
              refine ⟨presAll, ?_⟩
              have hpc2 : preprocess_cell engine setup endIdx store2 c i =
                  some ({ c with outputs := outs }, store2, 0) := by
                simp [preprocess_cell, hc, hk2]
              simp [processList, hpc2, hidem]
        · have hpc0 : preprocess_cell engine setup endIdx store c i =
              some (c, store, 0) := by
            simp [preprocess_cell, hc]
          rw [hpc0] at hpc
          simp only [Option.some.injEq, Prod.mk.injEq] at hpc
          obtain ⟨rfl, rfl, rfl⟩ := hpc
          refine ⟨pres, ?_⟩
          have hpc2 : preprocess_cell engine setup endIdx store2 c i =
              some (c, store2, 0) := by
            simp [preprocess_cell, hc]
          simp [processList, hpc2, hidem]

/-! ## Claim theorems -/

/-- Claim C1: for a code cell at index `i` of a document, the cache key is
the SHA-1 hex digest of its effective source, where the effective source is
the Setup Set sources plus the cell's own source joined with a newline when
`i` is strictly greater than the setup boundary index and the Setup Set is
non-empty, and the cell's own source alone otherwise. -/
theorem cacheKey_is_sha1_of_effective_source {O : Type} (sc : Nat)
    (cells : List (Cell O)) (setup : List String) (endIdx i : Nat)
    (cell : Cell O)
    (hx : extractSetup sc cells = some (setup, endIdx))
    (hcell : cells[i]? = some cell)
    (hcode : cell.cell_type = CellType.code) :
    cache_key setup endIdx cell.source i =
      sha1Hex (effectiveSourceSpec sc cells endIdx cell.source i) := by
  have hsetup : setup = setupSetSpec sc cells := by
    cases cells with
    | nil => simp [extractSetup] at hx
    | cons c rest =>
      simp only [extractSetup, Option.some.injEq] at hx
      have h1 : (setupScan sc (c :: rest) 0 []).1 = setup := by rw [hx]
      rw [setupScan_fst] at h1
      simpa [setupSetSpec] using h1.symm
  rw [hsetup]
  rfl

/-- Witness for C1 at a three-cell document with `setup_cells = 1`: the
boundary index is 1 and cell 2 is keyed on the setup-prefixed source. -/
theorem cacheKey_is_sha1_of_effective_source_witness :
    cache_key ["a"] 1 "c" 2 = sha1Hex (effectiveSourceSpec 1 nbThree 1 "c" 2) :=
  cacheKey_is_sha1_of_effective_source 1 nbThree ["a"] 1 2
    ⟨CellType.code, "c", []⟩ (by decide) (by decide) rfl

/-- Claim C2 is refuted by the code: in the two-cell document with
`setup_cells = 1`, cell 1 sits exactly at the setup boundary index (1), and
`cache_key`'s strict comparison makes its effective source its own source
`"print(x)"` alone — not the claimed `"x = 1\nprint(x)"`. -/
theorem boundary_cell_effective_source_bug :
    docEffectiveSource 1 nbTwo 1 = some "print(x)" ∧
    "print(x)" ≠ "x = 1\nprint(x)" := by decide

/-- Claim C3 is refuted by the code: changing the setup cell `"x = 1"` to
`"x = 2"` leaves the cache key of the following non-setup cell unchanged —
both documents key cell 1 on `"print(x)"` alone. -/
theorem setup_change_misses_boundary_cell :
    nbTwo.map (fun c => c.source) = ["x = 1", "print(x)"] ∧
    nbTwoChanged.map (fun c => c.source) = ["x = 2", "print(x)"] ∧
    docKey 1 nbTwo 1 = docKey 1 nbTwoChanged 1 :=
  ⟨by decide, by decide, rfl⟩

set_option maxRecDepth 8192 in
/-- Claim C4 is refuted by the code: two documents with byte-identical setup
cell `"s"` and byte-identical target cell `"t"` give the target different
cache keys when an unrelated markdown cell shifts the target off the setup
boundary: with the markdown cell the key hashes `"s\nt"`, without it the
target sits at the boundary index and the key hashes `"t"` alone. -/
theorem key_not_deterministic_across_documents :
    docEffectiveSource 1 nbWithMarkdown 2 = some "s\nt" ∧
    docEffectiveSource 1 nbPlain 1 = some "t" ∧
    docKey 1 nbWithMarkdown 2 ≠ docKey 1 nbPlain 1 := by
  refine ⟨by decide, by decide, ?_⟩
  decide

/-- Claim C5: re-processing a document against the store produced by a first
successful pass reproduces exactly the same cells (hence identical outputs
on every code cell), leaves the store unchanged, and performs zero
execution-engine invocations (every code cell's key hits the cache). -/
theorem preprocess_idempotent {O : Type}
    (engine : Option String → String → List O) (sc : Nat) (store : Store O)
    (cells cells1 : List (Cell O)) (store1 : Store O) (n1 : Nat)
    (h : preprocess engine sc store cells = some (cells1, store1, n1)) :
    preprocess engine sc store1 cells = some (cells1, store1, 0) := by
  unfold preprocess at h ⊢
  cases hx : extractSetup sc cells with
  | none =>
    rw [hx] at h
    exact Option.noConfusion h
  | some p =>
    obtain ⟨setup, endIdx⟩ := p
    simp only [hx] at h ⊢
    exact (processList_second_pass engine setup endIdx cells store 0
      cells1 store1 n1 h).2

set_option maxRecDepth 8192 in
/-- Witness for C5 on a one-cell document: the first pass runs the engine
once and caches `[7]`; the second pass serves it from the store. -/
theorem preprocess_idempotent_witness :
    preprocess (fun _ _ => [7]) 1 [(sha1Hex "a", [7])]
      [⟨CellType.code, "a", ([] : List Nat)⟩] =
    some ([⟨CellType.code, "a", [7]⟩], [(sha1Hex "a", [7])], 0) :=
  preprocess_idempotent (fun _ _ => [7]) 1 [] _ _ _ 1 (by decide)

/-- Claim C6: on a miss, the replay source is the full Setup Set joined when
the cell's index is at or past the setup boundary; when before it, exactly
the Setup Set entries strictly preceding the (first) entry matching the
cell's own source — the matching entry itself is excluded, so a setup cell
never replays itself or later setup entries. -/
theorem replay_source_rule (setup : List String) (endIdx : Nat)
    (src : String) (i : Nat) :
    (endIdx ≤ i →
      replaySource setup endIdx src i =
        some (String.intercalate "\n" setup)) ∧
    (i < endIdx → src ∈ setup →
      ∃ j, pyIndex src setup = some j ∧ setup[j]? = some src ∧
        replaySource setup endIdx src i =
          some (String.intercalate "\n" (setup.take j)) ∧
        src ∉ setup.take j) := by
  constructor
  · intro h
    simp [replaySource, h]
  · intro hi hmem
    obtain ⟨j, hj⟩ :=
      Option.isSome_iff_exists.mp (pyIndex_isSome src setup hmem)
    refine ⟨j, hj, (pyIndex_get src setup j hj).1, ?_,
      (pyIndex_get src setup j hj).2⟩
    simp only [replaySource, if_neg (Nat.not_le.mpr hi), hj]

/-- Witness for C6: the second setup cell `"b"` replays exactly `["a"]`. -/
theorem replay_source_rule_witness :
    ∃ j, pyIndex "b" ["a", "b"] = some j ∧ ["a", "b"][j]? = some "b" ∧
      replaySource ["a", "b"] 2 "b" 1 =
        some (String.intercalate "\n" (["a", "b"].take j)) ∧
      "b" ∉ ["a", "b"].take j :=
  (replay_source_rule ["a", "b"] 2 "b" 1).2 (by decide) (by decide)

/-- Claim C7: `get` raises `KeyError` when the key's file is absent; when
the file exists but its content does not parse as JSON, `get` removes the
file and raises, so an immediately subsequent existence check on the key is
false (a NotFound-equivalent outcome). -/
theorem getItem_notfound_and_self_heal {V : Type} (root key : String)
    (fs : FS V) :
    (OutputCache.contains root fs key = false →
      OutputCache.getItem root fs key =
        (Except.error (PyErr.keyError key), fs)) ∧
    (∀ raw, List.lookup (OutputCache._path root key) fs =
        some (FileData.invalid raw) →
      (OutputCache.getItem root fs key).1 = Except.error PyErr.valueError ∧
      OutputCache.contains root (OutputCache.getItem root fs key).2 key =
        false) := by
  constructor
  · intro h
    simp [OutputCache.getItem, h]
  · intro raw hraw
    have hcont : OutputCache.contains root fs key = true := by
      simp [OutputCache.contains, hraw]
    constructor
    · simp [OutputCache.getItem, hcont, hraw]
    · simp [OutputCache.getItem, hcont, hraw, OutputCache.contains,
        lookup_filter_ne]

/-- Witness for C7: a corrupt file for key `"ab12"` is removed and the key
no longer exists. -/
theorem getItem_notfound_and_self_heal_witness :
    (OutputCache.getItem "r"
        [(OutputCache._path "r" "ab12", (FileData.invalid "oops" : FileData Nat))]
        "ab12").1 = Except.error PyErr.valueError ∧
    OutputCache.contains "r"
      (OutputCache.getItem "r"
        [(OutputCache._path "r" "ab12", (FileData.invalid "oops" : FileData Nat))]
        "ab12").2 "ab12" = false :=
  (getItem_notfound_and_self_heal "r" "ab12" _).2 "oops" (by decide)

/-- Claim C8: for a key of length at least 2 — split as a 2-character shard
part and a remainder — the store path is `root/<2 chars>/<rest>.json`; in
particular key `"ab1234"` maps to `root/ab/1234.json`. -/
theorem path_sharding (root a b : String) (h : a.data.length = 2) :
    OutputCache._path root (a ++ b) =
      root ++ "/" ++ a ++ "/" ++ (b ++ ".json") ∧
    OutputCache._path root "ab1234" =
      root ++ "/" ++ "ab" ++ "/" ++ "1234.json" := by
  constructor
  · obtain ⟨x, y, hxy⟩ := List.length_eq_two.mp h
    have hdata : (a ++ b).data = a.data ++ b.data := String.data_append a b
    have htake : (a ++ b).data.take 2 = a.data := by
      rw [hdata, hxy]
      rfl
    have hdrop : (a ++ b).data.drop 2 = b.data := by
      rw [hdata, hxy]
      rfl
    show osPathJoin (osPathJoin root ⟨(a ++ b).data.take 2⟩)
      (⟨(a ++ b).data.drop 2⟩ ++ ".json") = _
    rw [htake, hdrop]
    rfl
  · rfl

/-- Witness for C8 at root `"c"` and key `"ab1234"`. -/
theorem path_sharding_witness :
    OutputCache._path "c" ("ab" ++ "1234") =
      "c" ++ "/" ++ "ab" ++ "/" ++ ("1234" ++ ".json") ∧
    OutputCache._path "c" "ab1234" =
      "c" ++ "/" ++ "ab" ++ "/" ++ "1234.json" :=
  path_sharding "c" "ab" "1234" (by decide)

/-- Claim C9: after setup extraction every code cell whose index lies
strictly below the setup boundary index has its source in the Setup Set, so
the text-match lookup computing an in-setup cell's replay never fails. -/
theorem in_setup_cells_have_sources_in_setup {O : Type} (sc : Nat)
    (cells : List (Cell O)) (setup : List String) (endIdx i : Nat)
    (cell : Cell O)
    (hx : extractSetup sc cells = some (setup, endIdx))
    (hcell : cells[i]? = some cell) (hi : i < endIdx)
    (hcode : cell.cell_type = CellType.code) :
    cell.source ∈ setup ∧
    (replaySource setup endIdx cell.source i).isSome := by
  have hmem : cell.source ∈ setup := by
    cases cells with
    | nil => simp [extractSetup] at hx
    | cons c rest =>
      simp only [extractSetup, Option.some.injEq] at hx
      have h1 : (setupScan sc (c :: rest) 0 []).1 = setup := by rw [hx]
      have h2 : (setupScan sc (c :: rest) 0 []).2 = endIdx := by rw [hx]
      have h3 := (setupScan_sources sc (c :: rest) 0 []).2 i cell hcell
        (by rw [h2]; omega) hcode
      rwa [h1] at h3
  refine ⟨hmem, ?_⟩
  obtain ⟨j, hj⟩ :=
    Option.isSome_iff_exists.mp (pyIndex_isSome cell.source setup hmem)
  simp [replaySource, Nat.not_le.mpr hi, hj]

/-- Witness for C9: with `setup_cells = 2` over two code cells the boundary
is 1, and cell 0's source is in the Setup Set with a successful replay
lookup. -/
theorem in_setup_cells_witness :
    "a" ∈ ["a", "b"] ∧ (replaySource ["a", "b"] 1 "a" 0).isSome :=
  in_setup_cells_have_sources_in_setup 2 nbAB ["a", "b"] 1 0
    ⟨CellType.code, "a", []⟩ (by decide) (by decide) (by decide) rfl

/-- Claim C10: on a zero-cell document the setup scan binds no boundary
index, and `preprocess` fails (Python raises `NameError`; here `none`)
rather than returning the unchanged document. -/
theorem preprocess_empty_document_fails {O : Type}
    (engine : Option String → String → List O) (sc : Nat) (store : Store O) :
    extractSetup sc ([] : List (Cell O)) = none ∧
    preprocess engine sc store [] = none :=
  ⟨rfl, rfl⟩

end CachedOutput
